import Mathlib

/-!
# Verification of the guided speaker diarization training core

Shallow embedding of `pyannote/audio/tasks/segmentation/guided_speaker_diarization.py`:
the guide transform (`BaseGuide.apply_transform` and the `randomize_parameters`
of its subclasses), the per-chunk target discretizer (`prepare_chunk`), the
speaker-budget collator (`collate_y`) and the loss composition of
`training_step`.

Conventions:
* float tensors are embedded over `ℚ` (all arithmetic involved is exact);
* a target tensor of shape (batch, channel, frame, speaker) is a function
  `ℕ → ℕ → ℕ → ℚ`, a boolean mask of shape (batch, channel, frame) is a
  function `ℕ → ℕ → ℕ → Bool`;
* a per-chunk multilabel matrix of shape (num_frames, num_speakers) is stored
  column-wise as `List (List Bool)`: one list of frame activities per speaker;
* random draws (`random.randint`, `random.sample`, `np.random.shuffle`) are
  passed in as explicit parameters constrained by the hypotheses the Python
  generators guarantee (a value in a range, a sample without replacement, a
  permutation).
-/

/-! ## Guide transform (`BaseGuide.apply_transform`) -/

/-- `BaseGuide.apply_transform`: `guides = 2 * (targets - 0.5)`, then
`guides[~guided] = 0.0`.  `guided` has shape (batch, channel, frame) and is
broadcast over the speaker dimension. -/
def apply_transform (guided : ℕ → ℕ → ℕ → Bool) (targets : ℕ → ℕ → ℕ → ℕ → ℚ) :
    ℕ → ℕ → ℕ → ℕ → ℚ :=
  fun b c f s => if guided b c f then 2 * (targets b c f s - 1/2) else 0

/-- A target tensor is binary when every entry is 0 or 1. -/
def BinaryTarget (targets : ℕ → ℕ → ℕ → ℕ → ℚ) : Prop :=
  ∀ b c f s, targets b c f s = 0 ∨ targets b c f s = 1

/-! ## Mask generation (`randomize_parameters` of the four strategies) -/

/-- `NoGuide.randomize_parameters`: `guided = torch.zeros(...)`. -/
def noGuideMask : ℕ → ℕ → ℕ → Bool := fun _ _ _ => false

/-- `FullGuide.randomize_parameters`: `guided = torch.ones(...)`. -/
def fullGuideMask : ℕ → ℕ → ℕ → Bool := fun _ _ _ => true

/-- `FirstHalfGuide.randomize_parameters`:
`guided[:, :, : (num_frames // 2)] = 1` on an all-zero mask. -/
def firstHalfGuideMask (numFrames : ℕ) : ℕ → ℕ → ℕ → Bool :=
  fun _ _ f => decide (f < numFrames / 2)

/-- `RandomFrameGuide.randomize_parameters`:
for each sample `b`, `guided[b, :, guided_frames_idx] = 1` where
`guided_frames_idx = random.sample(range(num_frames), k)`; the drawn index
list of each sample is passed in as `chosen b`. -/
def randomFrameGuideMask (chosen : ℕ → List ℕ) : ℕ → ℕ → ℕ → Bool :=
  fun b _ f => (chosen b).contains f

/-! ## Frame target discretizer (`prepare_chunk`) -/

/-- One row of the `annotations` record array: a speaker turn with its start
and end times (floats, embedded as `ℚ`) and its label index in the current
scope space (`chunk_annotations[label_scope_key]`). -/
structure Annotation where
  start : ℚ
  stop : ℚ
  label : ℕ
deriving DecidableEq, Repr

/-- The filter
`annotations[(annotations["start"] < chunk.end) & (annotations["end"] > chunk.start)]`. -/
def overlapsChunk (chunkStart chunkEnd : ℚ) (a : Annotation) : Bool :=
  decide (a.start < chunkEnd) && decide (a.stop > chunkStart)

/-- `start_idx = np.floor((np.maximum(start, chunk.start) - chunk.start) / step)`. -/
def startIdx (chunkStart step : ℚ) (a : Annotation) : ℤ :=
  ⌊(max a.start chunkStart - chunkStart) / step⌋

/-- `end_idx = np.ceil((np.minimum(end, chunk.end) - chunk.start) / step)`. -/
def endIdx (chunkStart chunkEnd step : ℚ) (a : Annotation) : ℤ :=
  ⌈(min a.stop chunkEnd - chunkStart) / step⌉

/-- One iteration of the fill loop: `y[start:end, mapped_label] = 1`.
NumPy slice assignment clips the slice to the `num_frames` rows of `y`
(`start_idx` is never negative since `step > 0` and the numerator is
nonnegative), so frame `f` of label `l` is set when
`start_idx ≤ f < end_idx` and `f < num_frames`. -/
def markAnn (chunkStart chunkEnd step : ℚ) (numFrames : ℕ)
    (y : ℕ → ℕ → Bool) (a : Annotation) : ℕ → ℕ → Bool :=
  fun f l =>
    y f l ||
      (decide (l = a.label) && decide (f < numFrames) &&
        decide (startIdx chunkStart step a ≤ (f : ℤ)) &&
        decide ((f : ℤ) < endIdx chunkStart chunkEnd step a))

/-- The target matrix built by `prepare_chunk`: start from
`np.zeros((num_frames, num_labels))` and run the fill loop over the
annotations that overlap the chunk.  `prepare_y ... f l = true` means the
entry of row `f` in the column of label `l` is 1. -/
def prepare_y (chunkStart chunkEnd step : ℚ) (numFrames : ℕ)
    (anns : List Annotation) : ℕ → ℕ → Bool :=
  ((anns.filter (overlapsChunk chunkStart chunkEnd)).foldl
    (markAnn chunkStart chunkEnd step numFrames) (fun _ _ => false))

/-! ## Speaker budget selector (`collate_y`) -/

/-- Talkativeness of one speaker column: `np.sum(y, axis=0)` for that
column (the number of active frames, since entries are 0/1). -/
def talk (col : List Bool) : ℕ := col.count true

/-- Talkativeness of column `i` of a column-wise matrix. -/
def talkAt (cols : List (List Bool)) (i : ℕ) : ℕ := talk (cols.getD i [])

/-- `indices = np.argsort(-np.sum(y, axis=0), axis=0)`: the column indices
sorted by descending talkativeness.  `np.argsort` is deterministic; its
tie order is implementation-defined, embedded here as the stable insertion
sort (every statement proved below is independent of the tie order). -/
def sortedIndices (cols : List (List Bool)) : List ℕ :=
  List.insertionSort (fun i j => talkAt cols j ≤ talkAt cols i)
    (List.range cols.length)

/-- `indices[: self.max_speakers_per_chunk]`. -/
def keptIndices (maxSpk : ℕ) (cols : List (List Bool)) : List ℕ :=
  (sortedIndices cols).take maxSpk

/-- `indices[self.max_speakers_per_chunk :]`: the column indices whose
columns are silently dropped. -/
def droppedIndices (maxSpk : ℕ) (cols : List (List Bool)) : List ℕ :=
  (sortedIndices cols).drop maxSpk

/-- Width normalization of `collate_y` for one sample (the three-way
branch on `num_speakers`), before the shuffle:
* `num_speakers > max_speakers_per_chunk`: `y = y[:, indices[:max]]`;
* `num_speakers < max_speakers_per_chunk`: zero-pad with
  `np.pad(y, ((0, 0), (0, max - num_speakers)))`;
* otherwise pass through unchanged. -/
def selectColumns (maxSpk numFrames : ℕ) (cols : List (List Bool)) :
    List (List Bool) :=
  if maxSpk < cols.length then
    (keptIndices maxSpk cols).map (fun i => cols.getD i [])
  else if cols.length < maxSpk then
    cols ++ List.replicate (maxSpk - cols.length) (List.replicate numFrames false)
  else
    cols

/-- Applying a column permutation, given as the list of source indices in
output order: the effect of `np.random.shuffle(y.T)` for one drawn
permutation `perm` (a permutation of `range` of the column count). -/
def applyPerm (perm : List ℕ) (cols : List (List Bool)) : List (List Bool) :=
  perm.map (fun i => cols.getD i [])

/-- `collate_y` for one sample: width normalization followed by the column
shuffle `np.random.shuffle(y.T)`, whose drawn permutation is `perm`. -/
def collate_y_sample (maxSpk numFrames : ℕ) (perm : List ℕ)
    (cols : List (List Bool)) : List (List Bool) :=
  applyPerm perm (selectColumns maxSpk numFrames cols)

/-- The caller's array `b["y"].data` after `collate_y` processed the sample.
In the truncation branch `y = y[:, indices[:max]]` rebinds `y` to a fancy-
indexing copy and in the padding branch `np.pad` returns a fresh array, so
the in-place shuffle `np.random.shuffle(y.T)` touches only the copy; but in
the `num_speakers == max_speakers_per_chunk` branch `y` still aliases the
caller's array, and the shuffle permutes the caller's columns in place. -/
def collate_y_input_after (maxSpk : ℕ) (perm : List ℕ)
    (cols : List (List Bool)) : List (List Bool) :=
  if cols.length = maxSpk then applyPerm perm cols else cols

/-- `collate_y` over a batch: per-sample width normalization and shuffle,
then `np.stack` (the stacked tensor is the list of per-sample matrices).
`perms b` is the permutation `np.random.shuffle` draws for sample `b`. -/
def collate_y (maxSpk numFrames : ℕ) (perms : ℕ → List ℕ)
    (batch : List (List (List Bool))) : List (List (List Bool)) :=
  (List.range batch.length).map
    (fun b => collate_y_sample maxSpk numFrames (perms b) (batch.getD b []))

/-! ## Loss composition (`training_step`) -/

/-- `torch.any(target_multilabel, dim=1)` for one speaker column: the
speaker is active at some frame of the sample. -/
def speakerActiveAnywhere (col : List Bool) : Bool := col.any id

/-- `num_speakers = torch.sum(torch.any(target_multilabel, dim=1), dim=1)`
for one sample: the number of speaker columns active at some frame. -/
def numActiveSpeakers (t : List (List Bool)) : ℕ :=
  (t.filter speakerActiveAnywhere).length

/-- `keep = num_speakers <= self.max_speakers_per_chunk` for one sample. -/
def keepSample (maxSpk : ℕ) (t : List (List Bool)) : Bool :=
  decide (numActiveSpeakers t ≤ maxSpk)

/-- `target_multilabel = target_multilabel[keep]`. -/
def keptTargets (maxSpk : ℕ) (batch : List (List (List Bool))) :
    List (List (List Bool)) :=
  batch.filter (keepSample maxSpk)

/-- `torch.any(guide != 0.0)` where the guide tensor is the list, over
samples, of frame lists of per-speaker values. -/
def guideNonzero (guide : List (List (List ℚ))) : Bool :=
  guide.any (fun smp => smp.any (fun fr => fr.any (fun v => decide (v ≠ 0))))

/-- The scalar loss returned by `training_step`.  The external capabilities
(model forward pass, powerset codec, optimal permutation, `nll_loss`) enter
only through the values of the segmentation loss and of the guide loss, so
they are abstracted as the parameters `segLossFn` (a function of the kept
targets) and `guideLossFn` (a function of the kept targets and the guide):

* drop the over-budget samples;
* `if not keep.any(): return {"loss": 0.0}`;
* `guide_loss = ...` when `torch.any(guide != 0.0)`, else `guide_loss = 0.0`;
* `loss = self.freedom * seg_loss + (1 - self.freedom) * guide_loss`. -/
def training_step_loss (maxSpk : ℕ) (freedom : ℚ)
    (batch : List (List (List Bool))) (guide : List (List (List ℚ)))
    (segLossFn : List (List (List Bool)) → ℚ)
    (guideLossFn : List (List (List Bool)) → List (List (List ℚ)) → ℚ) : ℚ :=
  let kept := keptTargets maxSpk batch
  if kept.isEmpty then 0
  else
    let segLoss := segLossFn kept
    let guideLoss := if guideNonzero guide then guideLossFn kept guide else 0
    freedom * segLoss + (1 - freedom) * guideLoss

/-- Number of speakers concurrently active at frame `f` of a sample.
Modelled from the spec: the claim about the drop filter speaks of
"concurrently active speakers", the number of speakers active at the same
frame; this definition exists to compare that reading with the code. -/
def concurrentAt (t : List (List Bool)) (f : ℕ) : ℕ :=
  (t.filter (fun col => col.getD f false)).length

/-- Maximum over all frames of `concurrentAt` (frames beyond every column
length have no active speaker, so scanning the longest column suffices).
Modelled from the spec, companion of `concurrentAt`. -/
def maxConcurrent (t : List (List Bool)) : ℕ :=
  (List.range (t.foldl (fun m c => m.max c.length) 0)).foldl
    (fun m f => m.max (concurrentAt t f)) 0

/-! ## Theorems -/

/-- C1: for every binary target tensor and boolean guided-frame mask, the
guide produced by `apply_transform` takes values only in {-1, 0, +1}; its
value at (b, c, f, s) is 0 iff frame (b, c, f) is unguided; wherever the
frame is guided the value equals `2 * (target - 0.5)`, i.e. +1 when the
target is 1 and -1 when it is 0; and zero-ness is uniform across the
speaker slots of a sample (the same temporal mask applies to every slot). -/
theorem guide_transform_correct (guided : ℕ → ℕ → ℕ → Bool)
    (targets : ℕ → ℕ → ℕ → ℕ → ℚ) (hbin : BinaryTarget targets) :
    ∀ b c f s,
      (apply_transform guided targets b c f s = -1 ∨
        apply_transform guided targets b c f s = 0 ∨
        apply_transform guided targets b c f s = 1) ∧
      (apply_transform guided targets b c f s = 0 ↔ guided b c f = false) ∧
      (guided b c f = true →
        apply_transform guided targets b c f s = 2 * (targets b c f s - 1/2) ∧
        (targets b c f s = 1 → apply_transform guided targets b c f s = 1) ∧
        (targets b c f s = 0 → apply_transform guided targets b c f s = -1)) ∧
      (∀ s2, (apply_transform guided targets b c f s = 0 ↔
        apply_transform guided targets b c f s2 = 0)) := by
  have key : ∀ b c f s, guided b c f = true →
      apply_transform guided targets b c f s = -1 ∨
        apply_transform guided targets b c f s = 1 := by
    intro b c f s hg
    rcases hbin b c f s with h | h
    · left; simp [apply_transform, hg, h]
    · right; simp [apply_transform, hg, h]; norm_num
  intro b c f s
  cases hg : guided b c f with
  | false =>
    refine ⟨Or.inr (Or.inl ?_), ?_, ?_, ?_⟩
    · simp [apply_transform, hg]
    · simp [apply_transform, hg]
    · intro h; exact absurd h (by simp [hg])
    · intro s2; simp [apply_transform, hg]
  | true =>
    have hne : apply_transform guided targets b c f s ≠ 0 := by
      rcases key b c f s hg with h | h <;> rw [h] <;> norm_num
    refine ⟨?_, ?_, ?_, ?_⟩
    · rcases key b c f s hg with h | h
      · exact Or.inl h
      · exact Or.inr (Or.inr h)
    · simp [hne, hg]
    · intro _
      refine ⟨by simp [apply_transform, hg], ?_, ?_⟩
      · intro h1; simp [apply_transform, hg, h1]; norm_num
      · intro h0; simp [apply_transform, hg, h0]
    · intro s2
      have hne2 : apply_transform guided targets b c f s2 ≠ 0 := by
        rcases key b c f s2 hg with h | h <;> rw [h] <;> norm_num
      simp [hne, hne2]

/-- A concrete binary target tensor used to instantiate the theorems. -/
def exTargets : ℕ → ℕ → ℕ → ℕ → ℚ := fun _ _ f _ => if f = 0 then 1 else 0

/-- A concrete guided-frame mask used to instantiate the theorems. -/
def exGuided : ℕ → ℕ → ℕ → Bool := fun _ _ f => decide (f = 0)

theorem exTargets_binary : BinaryTarget exTargets := by
  intro b c f s
  by_cases h : f = 0 <;> simp [exTargets, h]

/-- Witness for `guide_transform_correct` at a concrete target and mask. -/
theorem guide_transform_correct_witness :
    BinaryTarget exTargets ∧ apply_transform exGuided exTargets 0 0 0 0 = 1 :=
  ⟨exTargets_binary,
    (((guide_transform_correct exGuided exTargets exTargets_binary) 0 0 0 0).2.2.1
      rfl).2.1 rfl⟩

/-- C6: for every batch of binary targets, the `NoGuide` strategy yields an
all-zero guide; the `FirstHalfGuide` strategy yields nonzero guide entries
only at frames strictly below `num_frames / 2` (integer division); and with
the draws of `RandomFrameGuide` modelled as parameters — for each sample
`b`, `chosen b` is the list drawn by
`random.sample(range(num_frames), random.randint(min_frames, max_frames))`,
hence without repetition, within range, of length in
`[min_frames, max_frames]` — the guide of sample `b` has nonzero entries at
exactly the frames of `chosen b`, whose number `k = (chosen b).length`
satisfies `min_frames ≤ k ≤ max_frames`; each sample draws its own list. -/
theorem guide_strategies_correct (targets : ℕ → ℕ → ℕ → ℕ → ℚ)
    (hbin : BinaryTarget targets) (numFrames minFrames maxFrames : ℕ)
    (chosen : ℕ → List ℕ)
    (hk : ∀ b, minFrames ≤ (chosen b).length ∧ (chosen b).length ≤ maxFrames)
    (hnodup : ∀ b, (chosen b).Nodup)
    (hrange : ∀ b, ∀ i ∈ chosen b, i < numFrames) :
    (∀ b c f s, apply_transform noGuideMask targets b c f s = 0) ∧
    (∀ b c f s, apply_transform (firstHalfGuideMask numFrames) targets b c f s ≠ 0 →
      f < numFrames / 2) ∧
    (∀ b c f s,
      (apply_transform (randomFrameGuideMask chosen) targets b c f s ≠ 0 ↔
        f ∈ chosen b)) ∧
    (∀ b c s,
      ((List.range numFrames).filter
        (fun f =>
          decide (apply_transform (randomFrameGuideMask chosen) targets b c f s ≠ 0))).length
        = (chosen b).length ∧
      minFrames ≤ (chosen b).length ∧ (chosen b).length ≤ maxFrames) := by
  have hguided : ∀ (m : ℕ → ℕ → ℕ → Bool) b c f s, m b c f = true →
      apply_transform m targets b c f s ≠ 0 := by
    intro m b c f s hm
    rcases hbin b c f s with h | h
    · simp [apply_transform, hm, h]
    · simp [apply_transform, hm, h]
      norm_num
  have hrand : ∀ b c f s,
      (apply_transform (randomFrameGuideMask chosen) targets b c f s ≠ 0 ↔
        f ∈ chosen b) := by
    intro b c f s
    constructor
    · intro hne
      by_contra hmem
      have hm : randomFrameGuideMask chosen b c f = false := by
        simp [randomFrameGuideMask, hmem]
      exact hne (by simp [apply_transform, hm])
    · intro hmem
      exact hguided _ b c f s (by simp [randomFrameGuideMask, hmem])
  refine ⟨?_, ?_, hrand, ?_⟩
  · intro b c f s
    simp [apply_transform, noGuideMask]
  · intro b c f s hne
    by_contra hlt
    have hm : firstHalfGuideMask numFrames b c f = false := by
      simp [firstHalfGuideMask]
      omega
    exact hne (by simp [apply_transform, hm])
  · intro b c s
    refine ⟨?_, hk b⟩
    have hfc :
        ((List.range numFrames).filter
          (fun f =>
            decide (apply_transform (randomFrameGuideMask chosen) targets b c f s ≠ 0)))
          = (List.range numFrames).filter (fun f => decide (f ∈ chosen b)) := by
      apply List.filter_congr
      intro f _
      simp [hrand b c f s]
    rw [hfc]
    have hperm : ((List.range numFrames).filter (fun f => decide (f ∈ chosen b))).Perm
        (chosen b) := by
      rw [List.perm_ext_iff_of_nodup (List.Nodup.filter _ (List.nodup_range numFrames))
        (hnodup b)]
      intro a
      simp only [List.mem_filter, List.mem_range, decide_eq_true_eq]
      constructor
      · exact fun h => h.2
      · intro h; exact ⟨hrange b a h, h⟩
    exact hperm.length_eq

/-- Witness for `guide_strategies_correct` at a concrete target and draws. -/
theorem guide_strategies_correct_witness :
    BinaryTarget exTargets ∧
    apply_transform noGuideMask exTargets 0 0 0 0 = 0 ∧
    (apply_transform (randomFrameGuideMask (fun _ => [1, 3])) exTargets 0 0 1 0 ≠ 0 ↔
      (1 : ℕ) ∈ [1, 3]) := by
  have h := guide_strategies_correct exTargets exTargets_binary 4 1 2 (fun _ => [1, 3])
    (by intro b; show 1 ≤ ([1, 3] : List ℕ).length ∧ ([1, 3] : List ℕ).length ≤ 2; decide)
    (by intro b; show ([1, 3] : List ℕ).Nodup; decide)
    (by intro b; show ∀ i ∈ ([1, 3] : List ℕ), i < 4; decide)
  exact ⟨exTargets_binary, h.1 0 0 0 0, h.2.2.1 0 0 1 0⟩

/-- Unfolding of the fill loop of `prepare_chunk`: after folding
`markAnn` over a list of annotations, an entry is set iff it was
already set or some annotation of the list covers it. -/
theorem foldl_markAnn (cs ce step : ℚ) (nF : ℕ) (l : List Annotation)
    (acc : ℕ → ℕ → Bool) (f lab : ℕ) :
    (l.foldl (markAnn cs ce step nF) acc) f lab =
      (acc f lab ||
        l.any (fun a =>
          decide (lab = a.label) && decide (f < nF) &&
          decide (startIdx cs step a ≤ (f : ℤ)) &&
          decide ((f : ℤ) < endIdx cs ce step a))) := by
  induction l generalizing acc with
  | nil => simp
  | cons a l ih =>
    simp only [List.foldl_cons, List.any_cons, ih, markAnn]
    rw [Bool.or_assoc]

/-- With a positive step, `start_idx` is never negative (so the NumPy slice
`y[start_idx:end_idx]` never wraps around and the marked frames are exactly
those clipped to `[0, num_frames)`). -/
theorem startIdx_nonneg (cs step : ℚ) (a : Annotation) (hstep : 0 < step) :
    0 ≤ startIdx cs step a := by
  unfold startIdx
  apply Int.floor_nonneg.2
  apply div_nonneg _ hstep.le
  simp [le_max_iff]

/-- C7: in `prepare_chunk`, frame `f` is active for label `lab` iff some
annotation with that label intersects the chunk with strict inequalities
(`annotation.start < chunk.end` and `annotation.end > chunk.start`, so
annotations touching only at a boundary point contribute nothing) and
`f` lies in `[start_idx, end_idx)` clipped to `[0, num_frames)`, where
`start_idx = floor((max(annotation.start, chunk.start) - chunk.start)/step)`
and `end_idx = ceil((min(annotation.end, chunk.end) - chunk.start)/step)`. -/
theorem prepare_chunk_frames_correct (cs ce step : ℚ) (nF : ℕ)
    (anns : List Annotation) (f lab : ℕ) :
    prepare_y cs ce step nF anns f lab = true ↔
      ∃ a ∈ anns, (a.start < ce ∧ a.stop > cs) ∧ a.label = lab ∧
        f < nF ∧ startIdx cs step a ≤ (f : ℤ) ∧
        (f : ℤ) < endIdx cs ce step a := by
  unfold prepare_y
  rw [foldl_markAnn]
  simp only [Bool.false_or, List.any_eq_true, List.mem_filter, overlapsChunk,
    Bool.and_eq_true, decide_eq_true_eq]
  constructor
  · rintro ⟨a, ⟨ha, hov⟩, hp⟩
    exact ⟨a, ha, ⟨hov.1, hov.2⟩, hp.1.1.1.symm, hp.1.1.2, hp.1.2, hp.2⟩
  · rintro ⟨a, ha, hov, hlab, hf, hs, he⟩
    exact ⟨a, ⟨ha, hov.1, hov.2⟩, ⟨⟨hlab.symm, hf⟩, hs⟩, he⟩

/-- Reading a list back through `getD` over `range` of its length is the
identity. -/
theorem map_getD_range (xs : List (List Bool)) :
    (List.range xs.length).map (fun i => xs.getD i []) = xs := by
  induction xs with
  | nil => simp
  | cons x t ih =>
    rw [List.length_cons, List.range_succ_eq_map, List.map_cons, List.map_map]
    simp only [List.getD_cons_zero]
    congr 1

/-- Applying a drawn permutation rearranges the columns: the result is a
permutation (as a list) of the original columns. -/
theorem applyPerm_perm (perm : List ℕ) (cols : List (List Bool))
    (hperm : perm.Perm (List.range cols.length)) :
    (applyPerm perm cols).Perm cols := by
  have h1 : (applyPerm perm cols).Perm
      ((List.range cols.length).map (fun i => cols.getD i [])) :=
    hperm.map _
  rw [map_getD_range] at h1
  exact h1

/-- `np.argsort` returns a permutation of the column indices. -/
theorem sortedIndices_perm (cols : List (List Bool)) :
    (sortedIndices cols).Perm (List.range cols.length) :=
  List.perm_insertionSort _ _

/-- The argsorted index list is sorted by descending talkativeness. -/
theorem sortedIndices_sorted (cols : List (List Bool)) :
    List.Sorted (fun i j => talkAt cols j ≤ talkAt cols i) (sortedIndices cols) := by
  haveI : IsTotal ℕ (fun i j => talkAt cols j ≤ talkAt cols i) :=
    ⟨fun i j => le_total _ _⟩
  haveI : IsTrans ℕ (fun i j => talkAt cols j ≤ talkAt cols i) :=
    ⟨fun _ _ _ h1 h2 => le_trans h2 h1⟩
  exact List.sorted_insertionSort _ _

/-- Every index produced by the argsort is a valid column index. -/
theorem mem_sortedIndices (cols : List (List Bool)) (i : ℕ)
    (h : i ∈ sortedIndices cols) : i < cols.length := by
  have := (sortedIndices_perm cols).mem_iff.1 h
  exact List.mem_range.1 this

/-- Width normalization always yields exactly `max_speakers_per_chunk`
columns, in all three branches. -/
theorem length_selectColumns (maxSpk numFrames : ℕ) (cols : List (List Bool)) :
    (selectColumns maxSpk numFrames cols).length = maxSpk := by
  unfold selectColumns
  by_cases h1 : maxSpk < cols.length
  · have hlen : (sortedIndices cols).length = cols.length :=
      (sortedIndices_perm cols).length_eq.trans (List.length_range _)
    simp [h1, keptIndices, hlen]
    omega
  · by_cases h2 : cols.length < maxSpk
    · simp [h1, h2]
      omega
    · simp [h1, h2]
      omega

/-- Every column of the width-normalized sample is either one of the input
columns (selected or passed through) or an all-false padding column. -/
theorem selectColumns_mem (maxSpk numFrames : ℕ) (cols : List (List Bool))
    (c : List Bool) (hc : c ∈ selectColumns maxSpk numFrames cols) :
    c ∈ cols ∨ c = List.replicate numFrames false := by
  unfold selectColumns at hc
  by_cases h1 : maxSpk < cols.length
  · rw [if_pos h1] at hc
    rcases List.mem_map.1 hc with ⟨i, hi, rfl⟩
    have hilt : i < cols.length :=
      mem_sortedIndices cols i (List.mem_of_mem_take hi)
    left
    rw [List.getD_eq_getElem cols [] hilt]
    exact List.getElem_mem hilt
  · rw [if_neg h1] at hc
    by_cases h2 : cols.length < maxSpk
    · rw [if_pos h2] at hc
      rcases List.mem_append.1 hc with h | h
      · exact Or.inl h
      · exact Or.inr (List.eq_of_mem_replicate h)
    · rw [if_neg h2] at hc
      exact Or.inl hc

/-- C4: for every input sample to `collate_y` — more, fewer, or exactly
`max_speakers_per_chunk` columns, including the zero-column case — the
per-sample output has exactly `max_speakers_per_chunk` columns, every
column has exactly `num_frames` frames, and every column is either one of
the input speaker columns or entirely inactive (padding never marks a
phantom speaker active). -/
theorem collate_y_shape_correct (maxSpk numFrames : ℕ) (perm : List ℕ)
    (cols : List (List Bool))
    (hcols : ∀ c ∈ cols, c.length = numFrames)
    (hperm : perm.Perm (List.range maxSpk)) :
    (collate_y_sample maxSpk numFrames perm cols).length = maxSpk ∧
    (∀ c ∈ collate_y_sample maxSpk numFrames perm cols, c.length = numFrames) ∧
    (∀ c ∈ collate_y_sample maxSpk numFrames perm cols,
      c ∈ cols ∨ ∀ x ∈ c, x = false) := by
  have hsel : (selectColumns maxSpk numFrames cols).length = maxSpk :=
    length_selectColumns maxSpk numFrames cols
  have hperm2 : perm.Perm (List.range (selectColumns maxSpk numFrames cols).length) := by
    rw [hsel]; exact hperm
  have hap : (collate_y_sample maxSpk numFrames perm cols).Perm
      (selectColumns maxSpk numFrames cols) :=
    applyPerm_perm perm _ hperm2
  refine ⟨?_, ?_, ?_⟩
  · rw [hap.length_eq, hsel]
  · intro c hc
    rcases selectColumns_mem maxSpk numFrames cols c (hap.mem_iff.1 hc) with h | h
    · exact hcols c h
    · rw [h, List.length_replicate]
  · intro c hc
    rcases selectColumns_mem maxSpk numFrames cols c (hap.mem_iff.1 hc) with h | h
    · exact Or.inl h
    · right
      intro x hx
      rw [h] at hx
      exact List.eq_of_mem_replicate hx

/-- Witness for `collate_y_shape_correct` at the zero-label case: an empty
column list is padded to two all-zero speaker columns of three frames. -/
theorem collate_y_shape_correct_witness :
    (∀ c ∈ ([] : List (List Bool)), c.length = 3) ∧
    ([0, 1] : List ℕ).Perm (List.range 2) ∧
    (collate_y_sample 2 3 [0, 1] []).length = 2 :=
  ⟨by simp, by decide,
    (collate_y_shape_correct 2 3 [0, 1] [] (by simp) (by decide)).1⟩

/-- The example of the spec: four speakers A, B, C, D whose per-label
active-frame counts are [10, 5, 20, 2] over 20 frames (labels are the
column indices 0 = A, 1 = B, 2 = C, 3 = D). -/
def exCols : List (List Bool) :=
  [List.replicate 10 true ++ List.replicate 10 false,
   List.replicate 5 true ++ List.replicate 15 false,
   List.replicate 20 true,
   List.replicate 2 true ++ List.replicate 18 false]

/-- C5: when a sample has more labels than `max_speakers_per_chunk`, the
truncation branch keeps the columns selected by the argsort prefix, and
every retained column has an active-frame count at least as high as every
dropped column (the selection is by highest total activity; it is a pure,
deterministic function of the input, so ties are broken reproducibly).  On
the spec's example — counts [10, 5, 20, 2] for labels [A, B, C, D] and a
budget of 3 — the retained label indices are [2, 0, 1] = {C, A, B} and
label 3 = D is dropped. -/
theorem collate_y_truncation_correct (maxSpk numFrames : ℕ)
    (cols : List (List Bool)) (hgt : maxSpk < cols.length) :
    (selectColumns maxSpk numFrames cols =
      (keptIndices maxSpk cols).map (fun i => cols.getD i [])) ∧
    (∀ ck ∈ selectColumns maxSpk numFrames cols,
      ∀ j ∈ droppedIndices maxSpk cols, talkAt cols j ≤ talk ck) ∧
    keptIndices 3 exCols = [2, 0, 1] ∧
    droppedIndices 3 exCols = [3] := by
  have hsel : selectColumns maxSpk numFrames cols =
      (keptIndices maxSpk cols).map (fun i => cols.getD i []) := by
    unfold selectColumns
    rw [if_pos hgt]
  refine ⟨hsel, ?_, by decide, by decide⟩
  intro ck hck j hj
  rw [hsel] at hck
  rcases List.mem_map.1 hck with ⟨i, hi, rfl⟩
  have hpair : List.Pairwise (fun i j => talkAt cols j ≤ talkAt cols i)
      (keptIndices maxSpk cols ++ droppedIndices maxSpk cols) := by
    rw [keptIndices, droppedIndices, List.take_append_drop]
    exact sortedIndices_sorted cols
  exact (List.pairwise_append.1 hpair).2.2 i hi j hj

/-- Witness for `collate_y_truncation_correct` on the spec's example. -/
theorem collate_y_truncation_correct_witness :
    3 < exCols.length ∧ keptIndices 3 exCols = [2, 0, 1] :=
  ⟨by decide, (collate_y_truncation_correct 3 20 exCols (by decide)).2.2.1⟩

/-- Counterexample to C9: a sample with exactly `max_speakers_per_chunk`
(= 2) distinct columns over one frame.  `np.random.shuffle(y.T)` runs in
place on the caller's array in the equal-width branch (`y` is never
rebound to a copy there), so after a draw of the transposition the
caller's per-sample target array differs from what it held before the
call. -/
theorem collate_y_mutation_cex :
    ([1, 0] : List ℕ).Perm (List.range 2) ∧
    ([[true], [false]] : List (List Bool)).length = 2 ∧
    collate_y_input_after 2 [1, 0] [[true], [false]] ≠ [[true], [false]] := by
  decide

/-- Amended C9: `collate_y` leaves the caller's per-sample array unchanged
in the more-than and fewer-than width cases (those branches shuffle a
copy); in the exactly-`max_speakers_per_chunk` case the in-place shuffle
permutes the caller's columns — so the array held by the caller afterwards
is the drawn column permutation of what it held before (unchanged only
when the draw fixes the column order). -/
theorem collate_y_input_effect (maxSpk : ℕ) (perm : List ℕ)
    (cols : List (List Bool))
    (hperm : perm.Perm (List.range cols.length)) :
    (cols.length ≠ maxSpk → collate_y_input_after maxSpk perm cols = cols) ∧
    (cols.length = maxSpk → collate_y_input_after maxSpk perm cols = applyPerm perm cols) ∧
    (collate_y_input_after maxSpk perm cols).Perm cols := by
  refine ⟨?_, ?_, ?_⟩
  · intro h
    unfold collate_y_input_after
    rw [if_neg h]
  · intro h
    unfold collate_y_input_after
    rw [if_pos h]
  · unfold collate_y_input_after
    by_cases h : cols.length = maxSpk
    · rw [if_pos h]
      exact applyPerm_perm perm cols hperm
    · rw [if_neg h]

/-- Witness for `collate_y_input_effect`: a sample narrower than the
budget passes through the padding branch and the caller's array is
untouched. -/
theorem collate_y_input_effect_witness :
    ([0, 1] : List ℕ).Perm (List.range 2) ∧
    (([[true], [false]] : List (List Bool)).length ≠ 3 →
      collate_y_input_after 3 [0, 1] [[true], [false]] = [[true], [false]]) :=
  ⟨by decide,
    (collate_y_input_effect 3 [0, 1] [[true], [false]] (by decide)).1⟩

/-- `torch.any(guide != 0.0)` is false exactly when every entry of the
guide tensor is zero. -/
theorem guideNonzero_eq_false (guide : List (List (List ℚ))) :
    guideNonzero guide = false ↔
      ∀ smp ∈ guide, ∀ fr ∈ smp, ∀ v ∈ fr, v = 0 := by
  simp [guideNonzero]

/-- C2: whenever the drop filter leaves at least one sample, the scalar
returned by `training_step` equals
`freedom * seg_loss + (1 - freedom) * guide_loss`, where `guide_loss` is
exactly 0 when every entry of the guide tensor is zero; consequently for
`freedom = 1` the total loss equals the segmentation loss alone, whatever
the guide contains, and for `freedom = 0` it equals the guide loss alone —
hence 0 when the guide is entirely absent. -/
theorem training_loss_composition (maxSpk : ℕ) (freedom : ℚ)
    (batch : List (List (List Bool))) (guide : List (List (List ℚ)))
    (segLossFn : List (List (List Bool)) → ℚ)
    (guideLossFn : List (List (List Bool)) → List (List (List ℚ)) → ℚ)
    (hne : keptTargets maxSpk batch ≠ []) :
    (training_step_loss maxSpk freedom batch guide segLossFn guideLossFn =
      freedom * segLossFn (keptTargets maxSpk batch) +
        (1 - freedom) *
          (if guideNonzero guide then guideLossFn (keptTargets maxSpk batch) guide
            else 0)) ∧
    ((∀ smp ∈ guide, ∀ fr ∈ smp, ∀ v ∈ fr, v = 0) →
      (if guideNonzero guide then guideLossFn (keptTargets maxSpk batch) guide
        else 0) = 0) ∧
    (freedom = 1 →
      training_step_loss maxSpk freedom batch guide segLossFn guideLossFn =
        segLossFn (keptTargets maxSpk batch)) ∧
    (freedom = 0 →
      training_step_loss maxSpk freedom batch guide segLossFn guideLossFn =
        (if guideNonzero guide then guideLossFn (keptTargets maxSpk batch) guide
          else 0)) ∧
    (freedom = 0 → (∀ smp ∈ guide, ∀ fr ∈ smp, ∀ v ∈ fr, v = 0) →
      training_step_loss maxSpk freedom batch guide segLossFn guideLossFn = 0) := by
  have hempty : (keptTargets maxSpk batch).isEmpty = false := by
    rw [List.isEmpty_eq_false]
    exact hne
  have hloss : training_step_loss maxSpk freedom batch guide segLossFn guideLossFn =
      freedom * segLossFn (keptTargets maxSpk batch) +
        (1 - freedom) *
          (if guideNonzero guide then guideLossFn (keptTargets maxSpk batch) guide
            else 0) := by
    unfold training_step_loss
    simp only []
    rw [hempty]
    simp
  have hzero : (∀ smp ∈ guide, ∀ fr ∈ smp, ∀ v ∈ fr, v = 0) →
      (if guideNonzero guide then guideLossFn (keptTargets maxSpk batch) guide
        else 0) = 0 := by
    intro h
    rw [(guideNonzero_eq_false guide).2 h]
    simp
  refine ⟨hloss, hzero, ?_, ?_, ?_⟩
  · intro h1
    rw [hloss, h1]
    ring
  · intro h0
    rw [hloss, h0]
    ring
  · intro h0 hall
    rw [hloss, h0, hzero hall]
    ring

/-- Witness for `training_loss_composition`: a surviving one-sample batch
at `freedom = 1` returns exactly the segmentation loss. -/
theorem training_loss_composition_witness :
    keptTargets 1 [[[true]]] ≠ [] ∧
    training_step_loss 1 1 [[[true]]] [[[1]]] (fun _ => 2) (fun _ _ => 3) = 2 := by
  have h := training_loss_composition 1 1 [[[true]]] [[[1]]]
    (fun _ => 2) (fun _ _ => 3) (by decide)
  exact ⟨by decide, h.2.2.1 rfl⟩

/-- A sample with four speakers active on pairwise disjoint frames: at
most one speaker is concurrently active at any frame, but four speakers
are active somewhere in the chunk. -/
def exDisjoint : List (List Bool) :=
  [[true, false, false, false], [false, true, false, false],
   [false, false, true, false], [false, false, false, true]]

/-- Counterexample to C3: `training_step` computes
`num_speakers = torch.sum(torch.any(target, dim=1), dim=1)` — the number
of speakers active *anywhere* in the sample, not the number concurrently
active.  This sample never has more than one concurrently active speaker
(within the budget of 3), yet the filter drops it because four speakers
are active somewhere. -/
theorem drop_filter_cex :
    maxConcurrent exDisjoint = 1 ∧
    maxConcurrent exDisjoint ≤ 3 ∧
    numActiveSpeakers exDisjoint = 4 ∧
    keepSample 3 exDisjoint = false ∧
    keptTargets 3 [exDisjoint] = [] := by
  decide

/-- Amended C3: a sample is dropped from the batch before the forward pass
iff the number of its speaker columns active at some frame (speakers
active anywhere in the chunk, not concurrently) exceeds
`max_speakers_per_chunk`; samples whose count of anywhere-active speakers
is within the budget are never dropped. -/
theorem drop_filter_correct (maxSpk : ℕ) (batch : List (List (List Bool)))
    (t : List (List Bool)) :
    (t ∈ keptTargets maxSpk batch ↔
      t ∈ batch ∧ numActiveSpeakers t ≤ maxSpk) ∧
    (keepSample maxSpk t = false ↔ maxSpk < numActiveSpeakers t) := by
  constructor
  · rw [keptTargets, List.mem_filter]
    simp [keepSample]
  · simp [keepSample]

/-- C8: if the drop filter leaves no sample in the batch, `training_step`
returns a zero loss (the `if not keep.any(): return {"loss": 0.0}` early
return); the degenerate batch is handled locally by the total function,
not surfaced as an error. -/
theorem empty_batch_zero_loss (maxSpk : ℕ) (freedom : ℚ)
    (batch : List (List (List Bool))) (guide : List (List (List ℚ)))
    (segLossFn : List (List (List Bool)) → ℚ)
    (guideLossFn : List (List (List Bool)) → List (List (List ℚ)) → ℚ)
    (h : keptTargets maxSpk batch = []) :
    training_step_loss maxSpk freedom batch guide segLossFn guideLossFn = 0 := by
  unfold training_step_loss
  simp [h]

/-- Witness for `empty_batch_zero_loss`: a batch whose single sample has
four anywhere-active speakers against a budget of 3 is emptied by the
filter and the returned loss is 0. -/
theorem empty_batch_zero_loss_witness :
    keptTargets 3 [exDisjoint] = [] ∧
    training_step_loss 3 (1/2) [exDisjoint] [] (fun _ => 5) (fun _ _ => 7) = 0 :=
  ⟨by decide,
    empty_batch_zero_loss 3 (1/2) [exDisjoint] [] (fun _ => 5) (fun _ _ => 7)
      (by decide)⟩

/-- C10: a batch collated by `collate_y` has exactly
`max_speakers_per_chunk` speaker columns per sample, so each sample has at
most `max_speakers_per_chunk` anywhere-active speakers and the drop filter
of `training_step` keeps every sample; the zero-loss early return is
reachable only when the incoming batch is itself empty. -/
theorem collated_batch_never_dropped (maxSpk numFrames : ℕ)
    (perms : ℕ → List ℕ) (batch : List (List (List Bool)))
    (hperm : ∀ b < batch.length, (perms b).Perm (List.range maxSpk)) :
    keptTargets maxSpk (collate_y maxSpk numFrames perms batch) =
      collate_y maxSpk numFrames perms batch ∧
    (keptTargets maxSpk (collate_y maxSpk numFrames perms batch) = [] ↔
      batch = []) := by
  have hkeep : ∀ t ∈ collate_y maxSpk numFrames perms batch,
      keepSample maxSpk t = true := by
    intro t ht
    rcases List.mem_map.1 ht with ⟨b, hb, rfl⟩
    have hblt : b < batch.length := List.mem_range.1 hb
    have hlen : (collate_y_sample maxSpk numFrames (perms b) (batch.getD b [])).length
        = maxSpk := by
      unfold collate_y_sample applyPerm
      rw [List.length_map, (hperm b hblt).length_eq, List.length_range]
    have hcount : numActiveSpeakers
        (collate_y_sample maxSpk numFrames (perms b) (batch.getD b [])) ≤ maxSpk := by
      calc numActiveSpeakers (collate_y_sample maxSpk numFrames (perms b) (batch.getD b []))
          ≤ (collate_y_sample maxSpk numFrames (perms b) (batch.getD b [])).length :=
            List.length_filter_le _ _
        _ = maxSpk := hlen
    simpa [keepSample] using hcount
  have heq : keptTargets maxSpk (collate_y maxSpk numFrames perms batch) =
      collate_y maxSpk numFrames perms batch :=
    List.filter_eq_self.2 hkeep
  refine ⟨heq, ?_⟩
  rw [heq]
  unfold collate_y
  constructor
  · intro h
    have := congrArg List.length h
    simp at this
    exact this
  · intro h
    rw [h]
    simp

/-- Witness for `collated_batch_never_dropped`: a collated one-sample
batch with budget 2 survives the drop filter entirely. -/
theorem collated_batch_never_dropped_witness :
    keptTargets 2 (collate_y 2 1 (fun _ => [1, 0]) [[[true], [false]]]) =
      collate_y 2 1 (fun _ => [1, 0]) [[[true], [false]]] :=
  (collated_batch_never_dropped 2 1 (fun _ => [1, 0]) [[[true], [false]]]
    (by
      intro b _
      show ([1, 0] : List ℕ).Perm (List.range 2)
      decide)).1
